import Mathlib

/-!
# KeyMatchFull: pairwise key matching driver

A shallow embedding of `src/KeyMatchFull.cpp` (`ReadFileList`, `match_worker_fn`, `main`)
and the properties of its candidate windowing, match threshold, record layout,
list-file reading and start-up error handling.

Conventions of the embedding

* C `int` values are `Int`; image indices, which the code only ever produces in
  `0 .. num_images - 1`, are `Nat`. The one narrowing cast of the program,
  `(int) matches.size()`, is `toInt32`.
* The global vectors `keys` and `num_keys` are functions on the image index, valid
  on `0 .. num_images - 1`.
* The functions declared in `keys2a.h` (`ReadKeyFile`, `CreateSearchTree`,
  `MatchKeys`) are parameters, collected in `Keys2a`.
* A `double` is only ever passed through by this file; it is carried as a rational.
* What a job does to the outside world is returned as a list of `Event`s: the calls
  to `CreateSearchTree` and `MatchKeys`, and the blocks written to the output file
  under the write lock, one list element per `fprintf` call.
-/

set_option autoImplicit false

namespace KeyMatchFull

/-! ## Data model -/

/-- One entry of the vector returned by `MatchKeys`: `m_idx1` is the local index of the
key in the source image, `m_idx2` the local index in the target image. -/
structure KeypointMatch where
  m_idx1 : Int
  m_idx2 : Int
deriving DecidableEq, Repr

/-- The functions of `keys2a.h` that `KeyMatchFull.cpp` calls. -/
structure Keys2a (Keys Tree : Type) where
  ReadKeyFile : String → Int × Keys
  CreateSearchTree : Int → Keys → Tree
  MatchKeys : Int → Keys → Tree → ℚ → List KeypointMatch

/-- The global variables `keys`, `num_keys` and `num_images`. -/
structure Globals (Keys : Type) where
  keys : Nat → Keys
  num_keys : Nat → Int
  num_images : Nat

/-- The fields of `struct KeyMatchWorkerParams` that carry data; `output` and
`p_write_lock` are represented by the `Event.write` entries of the trace. -/
structure KeyMatchWorkerParams where
  i : Nat
  window_radius : Int
  ratio : ℚ

/-- Observable actions of a job. -/
inductive Event where
  | createSearchTree (i : Nat)
  | matchKeys (j i : Nat) (ratio : ℚ)
  | write (j i : Nat) (lines : List String)
deriving DecidableEq

/-! ## `match_worker_fn` -/

/-- The cast `(int) n` of a `size_t`: the low 32 bits, read as a signed number. -/
def toInt32 (n : Nat) : Int := Int.bmod (n : Int) (2 ^ 32)

/-- Conversion `%d` of `fprintf`. -/
def fmt_d (n : Int) : String := toString n

/-- Text of `fprintf(f, "%d %d\n", a, b)`. -/
def fmt_d_d (a b : Int) : String := fmt_d a ++ " " ++ fmt_d b ++ "\n"

/-- The block written while the write lock is held (lines 110-125): the pair, the
number of matches, then `matches[k]` for `k = 0 .. num_matches - 1`. -/
def write_block (j i : Nat) (ms : List KeypointMatch) (num_matches : Int) : List String :=
  fmt_d_d j i :: (fmt_d (toInt32 ms.length) ++ "\n") ::
    (ms.take num_matches.toNat).map (fun m => fmt_d_d m.m_idx1 m.m_idx2)

/-- Lines 93-96: the first source index of the scan. -/
def start_idx (i : Nat) (window_radius : Int) : Int :=
  if window_radius > 0 then max ((i : Int) - window_radius) 0 else 0

/-- The values taken by `j` in `for (int j = start_idx; j < i; j++)`. -/
def loop_indices (i : Nat) (window_radius : Int) : List Nat :=
  List.range' (start_idx i window_radius).toNat (i - (start_idx i window_radius).toNat)

/-- Body of the loop over `j` (lines 99-126). -/
def loop_body {Keys Tree : Type} (lib : Keys2a Keys Tree) (g : Globals Keys) (tree : Tree)
    (i : Nat) (ratio : ℚ) (j : Nat) : List Event :=
  if g.num_keys j = 0 then []
  else
    let ms := lib.MatchKeys (g.num_keys j) (g.keys j) tree ratio
    let num_matches := toInt32 ms.length
    Event.matchKeys j i ratio ::
      (if num_matches ≥ 16 then [Event.write j i (write_block j i ms num_matches)] else [])

/-- The job for one target image. -/
def match_worker_fn {Keys Tree : Type} (lib : Keys2a Keys Tree) (g : Globals Keys)
    (args : KeyMatchWorkerParams) : List Event :=
  let i := args.i
  if g.num_keys i = 0 then []
  else
    let tree := lib.CreateSearchTree (g.num_keys i) (g.keys i)
    Event.createSearchTree i ::
      (loop_indices i args.window_radius).flatMap (loop_body lib g tree i args.ratio)

/-- The test that decides whether the pair `(j, i)` is written. -/
def writes_pair {Keys Tree : Type} (lib : Keys2a Keys Tree) (g : Globals Keys)
    (i : Nat) (ratio : ℚ) (j : Nat) : Bool :=
  decide (g.num_keys j ≠ 0) &&
    decide (toInt32 (lib.MatchKeys (g.num_keys j) (g.keys j)
      (lib.CreateSearchTree (g.num_keys i) (g.keys i)) ratio).length ≥ 16)

/-- The source indices for which a job calls `MatchKeys`, in call order. -/
def matched_sources (es : List Event) : List Nat :=
  es.filterMap (fun e => match e with
    | Event.matchKeys j _ _ => some j
    | _ => none)

/-- The `(sourceIndex, targetIndex)` pairs of the records in a trace, in write order. -/
def written_pairs (es : List Event) : List (Nat × Nat) :=
  es.filterMap (fun e => match e with
    | Event.write j i _ => some (j, i)
    | _ => none)

/-- The text appended to the output file by a trace. -/
def output_lines (es : List Event) : List String :=
  es.flatMap (fun e => match e with
    | Event.write _ _ lines => lines
    | _ => [])

/-- Modelled from the spec: the worker pool (`threadpool.h` is not part of the source).
One job per image index is submitted in index order and every submitted job runs to
completion before the pool is destroyed; the jobs are independent, so the run is
represented by the jobs' traces one after another, in the order `order`. -/
def run_jobs {Keys Tree : Type} (lib : Keys2a Keys Tree) (g : Globals Keys)
    (order : List Nat) (window_radius : Int) (ratio : ℚ) : List Event :=
  order.flatMap (fun i => match_worker_fn lib g ⟨i, window_radius, ratio⟩)

/-! ## `ReadFileList` -/

/-- The function `isspace` of the C locale. -/
def isspace (c : Char) : Bool :=
  c == ' ' || c == '\t' || c == '\n' || c == '\x0b' || c == '\x0c' || c == '\r'

/-- Reads at most `k` characters, stopping after a new-line: the characters stored and
the rest of the stream. -/
def fgets_chars : Nat → List Char → List Char × List Char
  | 0, fp => ([], fp)
  | _ + 1, [] => ([], [])
  | k + 1, c :: cs =>
    if c = '\n' then ([c], cs)
    else ((c :: (fgets_chars k cs).1), (fgets_chars k cs).2)

/-- The call `fgets(buf, n, fp)`: `none` at end of file, otherwise the characters
stored in `buf` and the rest of the stream. -/
def fgets (n : Nat) (fp : List Char) : Option (List Char × List Char) :=
  match fp with
  | [] => none
  | _ :: _ => some (fgets_chars (n - 1) fp)

/-- The C string held in a buffer: the characters before the first NUL. -/
def c_str (buf : List Char) : List Char := buf.takeWhile (fun c => c != '\x00')

/-- The loop `while (fgets(buf, 512, fp))` of lines 51-64. Every pass consumes at least
one character, so `fuel = fp.length` passes are enough. The result is `none` when a
chunk starts with a NUL character: then `strlen(buf)` is 0 and `buf[strlen(buf) - 1]` is
read outside the buffer. -/
def ReadFileList_loop : Nat → List Char → List String → Option (List String)
  | 0, fp, key_files =>
    match fgets 512 fp with
    | none => some key_files
    | some _ => none
  | fuel + 1, fp, key_files =>
    match fgets 512 fp with
    | none => some key_files
    | some (chunk, fp') =>
      match (c_str chunk).getLast? with
      | none => none
      | some last =>
        -- Remove trailing new-line
        let buf := if last = '\n' then (c_str chunk).dropLast else c_str chunk
        -- Find first non-space character
        let start := buf.dropWhile isspace
        -- Skip empty lines
        if start.length = 0 then ReadFileList_loop fuel fp' key_files
        -- Append file-name to key_files
        else ReadFileList_loop fuel fp' (key_files ++ [String.mk buf])

/-- The function `ReadFileList(list_in, key_files)`: the returned status and the final
`key_files`. `fopen_r path` is the content of the file when `fopen(path, "r")`
succeeds. -/
def ReadFileList (fopen_r : String → Option (List Char)) (list_in : String)
    (key_files : List String) : Option (Int × List String) :=
  match fopen_r list_in with
  | none => some (1, key_files)
  | some fp =>
    match ReadFileList_loop fp.length fp key_files with
    | none => none
    | some key_files' =>
      -- Check we found input files
      if key_files'.length = 0 then some (1, key_files') else some (0, key_files')

/-! ## `main` -/

/-- The operating-system and C-library services used by `main`. -/
structure Sys where
  /-- Content of the file when `fopen(path, "r")` succeeds. -/
  fopen_r : String → Option (List Char)
  /-- Whether `fopen(path, "w")` succeeds. -/
  fopen_w : String → Bool
  atoi : String → Int
  /-- Value returned by `pthread_mutex_init`. -/
  pthread_mutex_init : Int

/-- What a run of `main` leaves behind: the exit status, the paths passed to
`fopen(_, "w")`, and the trace of the jobs. -/
structure MainResult where
  status : Int
  fopen_w_calls : List String
  trace : List Event

def EXIT_SUCCESS : Int := 0

def EXIT_FAILURE : Int := 1

/-- The function `main(argc, argv)` with `argc = argv.length`. The result is `none` when
the run does not return normally (`ReadFileList` reads outside its buffer, or
`resize` is called with a negative `num_images`). -/
def main {Keys Tree : Type} (sys : Sys) (lib : Keys2a Keys Tree) (argv : List String) :
    Option MainResult :=
  let argc := argv.length
  if argc ≠ 3 ∧ argc ≠ 4 then some ⟨EXIT_FAILURE, [], []⟩
  else
    let list_in := argv.getD 1 ""
    let ratio : ℚ := 0.6
    let file_out := argv.getD 2 ""
    let window_radius : Int := if argc = 4 then sys.atoi (argv.getD 3 "") else -1
    match ReadFileList sys.fopen_r list_in [] with
    | none => none
    | some (r, key_files) =>
      if r ≠ 0 then some ⟨EXIT_FAILURE, [], []⟩
      else if sys.fopen_w file_out = false then some ⟨EXIT_FAILURE, [file_out], []⟩
      else
        let num_images := toInt32 key_files.length
        if num_images < 0 then none
        else
          let g : Globals Keys :=
            { keys := fun i => (lib.ReadKeyFile (key_files.getD i "")).2
              num_keys := fun i => (lib.ReadKeyFile (key_files.getD i "")).1
              num_images := num_images.toNat }
          if sys.pthread_mutex_init ≠ 0 then some ⟨EXIT_FAILURE, [file_out], []⟩
          else
            some ⟨EXIT_SUCCESS, [file_out],
              run_jobs lib g (List.range g.num_images) window_radius ratio⟩

/-! ## Reference notions used to state the properties -/

/-- The lines of a text: the runs of characters between new-lines, each without its
new-line. A text that ends in a new-line has an empty last run. -/
def text_lines : List Char → List (List Char)
  | [] => [[]]
  | c :: cs =>
    if c = '\n' then [] :: text_lines cs
    else
      match text_lines cs with
      | [] => [[c]]
      | l :: ls => (c :: l) :: ls

/-- A line that contains a non-whitespace character. -/
def nonblank (l : List Char) : Bool := l.any (fun c => !isspace c)

/-- The entries the list text asks for: its non-blank lines, in order. -/
def path_entries (fp : List Char) : List String :=
  ((text_lines fp).filter nonblank).map String.mk

/-- Answer of the spatial index to a 2-nearest-neighbour query. -/
structure Neighbours where
  nearest1 : Int
  dist1 : ℚ
  nearest2 : Int
  dist2 : ℚ

/-- Modelled from the spec: the acceptance rule of the Ratio-Test Matcher (`MatchKeys`
of keys2a, which is not part of the source), section 4.3: accept iff
`dist1 / dist2 < ratio`. A quotient by a zero `dist2` cannot be evaluated (in the
arithmetic of the program it is not a number, and compares false); as in the other case
in which the spec cannot evaluate the test, nothing is accepted then. -/
def ratio_test (ratio dist1 dist2 : ℚ) : Bool :=
  if dist2 = 0 then false else decide (dist1 / dist2 < ratio)

/-- Modelled from the spec: the Ratio-Test Matcher `Match(sourceDescriptors, sourceCount,
targetIndex, ratio)` (`MatchKeys` of keys2a, which is not part of the source), section
4.3. `query d` is the answer of the target index for source descriptor `d`, `none` when
the target set has fewer than 2 descriptors. Every source descriptor, in local-index
order, is kept with its nearest neighbour iff it passes the ratio test. -/
def MatchKeys_model (query : Nat → Option Neighbours) (sourceCount : Nat) (ratio : ℚ) :
    List KeypointMatch :=
  (List.range sourceCount).filterMap (fun d =>
    match query d with
    | none => none
    | some nb => if ratio_test ratio nb.dist1 nb.dist2 then some ⟨d, nb.nearest1⟩ else none)

/-! ## Sample inputs -/

/-- A library whose matcher finds `n` matches for every pair. -/
def sample_lib (n : Nat) : Keys2a Unit Unit :=
  { ReadKeyFile := fun _ => (3, ())
    CreateSearchTree := fun _ _ => ()
    MatchKeys := fun _ _ _ _ => List.replicate n ⟨0, 1⟩ }

/-- Three images with three keys each. -/
def sample_globals : Globals Unit :=
  { keys := fun _ => (), num_keys := fun _ => 3, num_images := 3 }

/-- Three images with key counts 0, 5, 5. -/
def sample_globals_empty_first : Globals Unit :=
  { keys := fun _ => (), num_keys := fun i => if i = 0 then 0 else 5, num_images := 3 }

/-- A list file made of one line of 512 characters. -/
def long_line_text : List Char := List.replicate 512 'a' ++ ['\n']

/-- A list file with blank lines and padded names. -/
def sample_list_text : List Char := "a.key\n\n  \n b.key \nc".toList

/-- A system in which `list.txt` holds `sample_list_text` and no other file can be read. -/
def sample_sys : Sys :=
  { fopen_r := fun p => if p = "list.txt" then some sample_list_text else none
    fopen_w := fun _ => true
    atoi := fun _ => 0
    pthread_mutex_init := 0 }

/-- A target index with three descriptors at distances 2 and 4, 3 and 5, 0 and 0. -/
def sample_query (d : Nat) : Option Neighbours :=
  if d = 0 then some ⟨7, 2, 8, 4⟩ else if d = 1 then some ⟨9, 3, 7, 5⟩ else some ⟨4, 0, 5, 0⟩

/-! ## Lemmas on the trace of a job -/

theorem toInt32_of_lt (n : Nat) (h : n < 2 ^ 31) : toInt32 n = (n : Int) := by
  unfold toInt32 Int.bmod
  have h1 : ((n : Int) % ((2 ^ 32 : Nat) : Int)) = n := by
    apply Int.emod_eq_of_lt <;> push_cast <;> omega
  rw [h1]
  have h2 : (n : Int) < (((2 ^ 32 : Nat) : Int) + 1) / 2 := by push_cast; omega
  rw [if_pos h2]

theorem start_idx_nonneg (i : Nat) (r : Int) : 0 ≤ start_idx i r := by
  unfold start_idx
  split
  · exact le_max_right _ _
  · exact le_refl 0

theorem mem_loop_indices (i : Nat) (r : Int) (j : Nat) :
    j ∈ loop_indices i r ↔ start_idx i r ≤ (j : Int) ∧ j < i := by
  have h0 := start_idx_nonneg i r
  unfold loop_indices
  rw [List.mem_range']
  constructor
  · rintro ⟨k, hk, rfl⟩
    omega
  · rintro ⟨h1, h2⟩
    exact ⟨j - (start_idx i r).toNat, by omega, by omega⟩

theorem loop_indices_nodup (i : Nat) (r : Int) : (loop_indices i r).Nodup :=
  List.nodup_range' _ _

theorem loop_indices_of_nonpos (i : Nat) (r : Int) (hr : r ≤ 0) :
    loop_indices i r = List.range i := by
  have h : start_idx i r = 0 := by
    unfold start_idx
    rw [if_neg (by omega)]
  unfold loop_indices
  rw [h, List.range_eq_range']
  rfl

theorem matched_sources_flatMap {α : Type} (l : List α) (f : α → List Event) :
    matched_sources (l.flatMap f) = l.flatMap (fun a => matched_sources (f a)) := by
  induction l with
  | nil => rfl
  | cons a l ih =>
    simp only [List.flatMap_cons]
    rw [← ih]
    exact List.filterMap_append _ _ _

theorem written_pairs_flatMap {α : Type} (l : List α) (f : α → List Event) :
    written_pairs (l.flatMap f) = l.flatMap (fun a => written_pairs (f a)) := by
  induction l with
  | nil => rfl
  | cons a l ih =>
    simp only [List.flatMap_cons]
    rw [← ih]
    exact List.filterMap_append _ _ _

theorem flatMap_ite_singleton {α β : Type} (l : List α) (p : α → Bool) (f : α → β) :
    l.flatMap (fun a => if p a = true then [f a] else []) = (l.filter p).map f := by
  induction l with
  | nil => rfl
  | cons a l ih =>
    simp only [List.flatMap_cons, List.filter_cons]
    cases h : p a <;> simp [ih]

theorem matched_sources_loop_body {Keys Tree : Type} (lib : Keys2a Keys Tree)
    (g : Globals Keys) (tree : Tree) (i : Nat) (ratio : ℚ) (j : Nat) :
    matched_sources (loop_body lib g tree i ratio j)
      = if decide (g.num_keys j ≠ 0) = true then [j] else [] := by
  unfold loop_body
  by_cases h : g.num_keys j = 0
  · simp [h, matched_sources]
  · by_cases h16 : toInt32 (lib.MatchKeys (g.num_keys j) (g.keys j) tree ratio).length ≥ 16 <;>
      simp [h, h16, matched_sources]

theorem written_pairs_loop_body {Keys Tree : Type} (lib : Keys2a Keys Tree)
    (g : Globals Keys) (i : Nat) (ratio : ℚ) (j : Nat) :
    written_pairs (loop_body lib g (lib.CreateSearchTree (g.num_keys i) (g.keys i)) i ratio j)
      = if writes_pair lib g i ratio j = true then [(j, i)] else [] := by
  unfold loop_body writes_pair
  by_cases h : g.num_keys j = 0
  · simp [h, written_pairs]
  · by_cases h16 : toInt32 (lib.MatchKeys (g.num_keys j) (g.keys j)
        (lib.CreateSearchTree (g.num_keys i) (g.keys i)) ratio).length ≥ 16 <;>
      simp [h, h16, written_pairs]

theorem matched_sources_job {Keys Tree : Type} (lib : Keys2a Keys Tree) (g : Globals Keys)
    (args : KeyMatchWorkerParams) (hi : g.num_keys args.i ≠ 0) :
    matched_sources (match_worker_fn lib g args)
      = (loop_indices args.i args.window_radius).filter (fun j => decide (g.num_keys j ≠ 0)) := by
  unfold match_worker_fn
  simp only [hi, if_false]
  have h : ∀ (e : Event) (es : List Event), (∀ j i r, e ≠ Event.matchKeys j i r) →
      matched_sources (e :: es) = matched_sources es := by
    intro e es he
    cases e with
    | matchKeys j i r => exact absurd rfl (he j i r)
    | createSearchTree i => rfl
    | write j i l => rfl
  rw [h _ _ (by intro j i r hh; cases hh), matched_sources_flatMap]
  simp only [matched_sources_loop_body]
  rw [flatMap_ite_singleton]
  simp

theorem written_pairs_job {Keys Tree : Type} (lib : Keys2a Keys Tree) (g : Globals Keys)
    (args : KeyMatchWorkerParams) (hi : g.num_keys args.i ≠ 0) :
    written_pairs (match_worker_fn lib g args)
      = ((loop_indices args.i args.window_radius).filter
          (writes_pair lib g args.i args.ratio)).map (fun j => (j, args.i)) := by
  unfold match_worker_fn
  simp only [hi, if_false]
  have h : ∀ (i : Nat) (es : List Event),
      written_pairs (Event.createSearchTree i :: es) = written_pairs es := fun _ _ => rfl
  rw [h, written_pairs_flatMap]
  simp only [written_pairs_loop_body]
  rw [flatMap_ite_singleton]

theorem job_of_no_keys {Keys Tree : Type} (lib : Keys2a Keys Tree) (g : Globals Keys)
    (args : KeyMatchWorkerParams) (hi : g.num_keys args.i = 0) :
    match_worker_fn lib g args = [] := by
  unfold match_worker_fn
  simp [hi]

theorem mem_written_pairs_job {Keys Tree : Type} (lib : Keys2a Keys Tree) (g : Globals Keys)
    (args : KeyMatchWorkerParams) (p : Nat × Nat) :
    p ∈ written_pairs (match_worker_fn lib g args) ↔
      g.num_keys args.i ≠ 0 ∧ p.2 = args.i ∧ p.1 ∈ loop_indices args.i args.window_radius ∧
        writes_pair lib g args.i args.ratio p.1 = true := by
  by_cases hi : g.num_keys args.i = 0
  · rw [job_of_no_keys lib g args hi]
    simp [written_pairs, hi]
  · rw [written_pairs_job lib g args hi, List.mem_map]
    constructor
    · rintro ⟨j, hj, rfl⟩
      rw [List.mem_filter] at hj
      exact ⟨hi, rfl, hj.1, hj.2⟩
    · rintro ⟨_, h2, h3, h4⟩
      refine ⟨p.1, List.mem_filter.2 ⟨h3, h4⟩, ?_⟩
      rw [← h2]

theorem written_pairs_job_nodup {Keys Tree : Type} (lib : Keys2a Keys Tree) (g : Globals Keys)
    (args : KeyMatchWorkerParams) : (written_pairs (match_worker_fn lib g args)).Nodup := by
  by_cases hi : g.num_keys args.i = 0
  · rw [job_of_no_keys lib g args hi]
    exact List.nodup_nil
  · rw [written_pairs_job lib g args hi]
    apply List.Nodup.map
    · intro a b hab
      exact congrArg Prod.fst hab
    · exact (loop_indices_nodup _ _).filter _

theorem mem_matched_sources_job {Keys Tree : Type} (lib : Keys2a Keys Tree) (g : Globals Keys)
    (args : KeyMatchWorkerParams) (j : Nat) :
    j ∈ matched_sources (match_worker_fn lib g args) ↔
      g.num_keys args.i ≠ 0 ∧ j ∈ loop_indices args.i args.window_radius ∧ g.num_keys j ≠ 0 := by
  by_cases hi : g.num_keys args.i = 0
  · rw [job_of_no_keys lib g args hi]
    simp [matched_sources, hi]
  · rw [matched_sources_job lib g args hi, List.mem_filter]
    simp [hi]

theorem writes_pair_iff {Keys Tree : Type} (lib : Keys2a Keys Tree) (g : Globals Keys)
    (i : Nat) (ratio : ℚ) (j : Nat)
    (hlen : (lib.MatchKeys (g.num_keys j) (g.keys j)
      (lib.CreateSearchTree (g.num_keys i) (g.keys i)) ratio).length < 2 ^ 31) :
    writes_pair lib g i ratio j = true ↔
      g.num_keys j ≠ 0 ∧ 16 ≤ (lib.MatchKeys (g.num_keys j) (g.keys j)
        (lib.CreateSearchTree (g.num_keys i) (g.keys i)) ratio).length := by
  unfold writes_pair
  rw [toInt32_of_lt _ hlen]
  simp

theorem mem_write_job {Keys Tree : Type} (lib : Keys2a Keys Tree) (g : Globals Keys)
    (args : KeyMatchWorkerParams) (j t : Nat) (lines : List String)
    (h : Event.write j t lines ∈ match_worker_fn lib g args) :
    t = args.i ∧ lines = write_block j args.i
      (lib.MatchKeys (g.num_keys j) (g.keys j)
        (lib.CreateSearchTree (g.num_keys args.i) (g.keys args.i)) args.ratio)
      (toInt32 (lib.MatchKeys (g.num_keys j) (g.keys j)
        (lib.CreateSearchTree (g.num_keys args.i) (g.keys args.i)) args.ratio).length) := by
  unfold match_worker_fn at h
  by_cases hi : g.num_keys args.i = 0
  · simp [hi] at h
  · simp only [hi, if_false, List.mem_cons, List.mem_flatMap] at h
    rcases h with h | ⟨j', _, h⟩
    · cases h
    · unfold loop_body at h
      by_cases hj : g.num_keys j' = 0
      · simp [hj] at h
      · simp only [hj, if_false, List.mem_cons] at h
        rcases h with h | h
        · cases h
        · split at h
          · simp only [List.mem_singleton] at h
            cases h
            exact ⟨rfl, rfl⟩
          · cases h

theorem mem_job {Keys Tree : Type} (lib : Keys2a Keys Tree) (g : Globals Keys)
    (args : KeyMatchWorkerParams) (e : Event) (h : e ∈ match_worker_fn lib g args) :
    g.num_keys args.i ≠ 0 ∧
      (e = Event.createSearchTree args.i ∨
        ∃ j, j ∈ loop_indices args.i args.window_radius ∧ g.num_keys j ≠ 0 ∧
          (e = Event.matchKeys j args.i args.ratio ∨ ∃ lines, e = Event.write j args.i lines)) := by
  unfold match_worker_fn at h
  by_cases hi : g.num_keys args.i = 0
  · simp [hi] at h
  · refine ⟨hi, ?_⟩
    simp only [hi, if_false, List.mem_cons, List.mem_flatMap] at h
    rcases h with h | ⟨j, hj, h⟩
    · exact Or.inl h
    · right
      unfold loop_body at h
      by_cases hkj : g.num_keys j = 0
      · simp [hkj] at h
      · refine ⟨j, hj, hkj, ?_⟩
        simp only [hkj, if_false, List.mem_cons] at h
        rcases h with h | h
        · exact Or.inl h
        · split at h
          · simp only [List.mem_singleton] at h
            exact Or.inr ⟨_, h⟩
          · cases h

theorem mem_run_jobs {Keys Tree : Type} (lib : Keys2a Keys Tree) (g : Globals Keys)
    (order : List Nat) (r : Int) (ratio : ℚ) (e : Event) :
    e ∈ run_jobs lib g order r ratio ↔
      ∃ i ∈ order, e ∈ match_worker_fn lib g ⟨i, r, ratio⟩ := by
  unfold run_jobs
  rw [List.mem_flatMap]

theorem mem_written_pairs_run_jobs {Keys Tree : Type} (lib : Keys2a Keys Tree)
    (g : Globals Keys) (order : List Nat) (r : Int) (ratio : ℚ) (p : Nat × Nat) :
    p ∈ written_pairs (run_jobs lib g order r ratio) ↔
      ∃ i ∈ order, p ∈ written_pairs (match_worker_fn lib g ⟨i, r, ratio⟩) := by
  unfold run_jobs
  rw [written_pairs_flatMap, List.mem_flatMap]

theorem write_block_eq (j i : Nat) (ms : List KeypointMatch) (hlen : ms.length < 2 ^ 31) :
    write_block j i ms (toInt32 ms.length)
      = fmt_d_d j i :: (fmt_d ms.length ++ "\n") ::
          ms.map (fun m => fmt_d_d m.m_idx1 m.m_idx2) := by
  unfold write_block
  rw [toInt32_of_lt _ hlen, Int.toNat_ofNat, List.take_length]

theorem count_of_nodup {α : Type} [BEq α] [LawfulBEq α] [DecidableEq α] (l : List α) (a : α)
    (h : l.Nodup) : l.count a = if a ∈ l then 1 else 0 := by
  induction l with
  | nil => simp
  | cons b l ih =>
    rw [List.nodup_cons] at h
    rw [List.count_cons, ih h.2]
    by_cases hba : b = a
    · subst hba
      simp [h.1]
    · have hab : ¬ a = b := fun hh => hba hh.symm
      simp [hba, hab]

/-! ## Candidate window (C1) -/

/-- C1, as stated, fails: with windowRadius 0 the job for target 1 scans source 0, which is
outside `[max(1 - 0, 0), 1)`, and it writes the record of the pair (0, 1), whose index
distance 1 is larger than the radius 0. -/
theorem C1_radius_zero_counterexample :
    0 ∈ loop_indices 1 0 ∧
    ¬ (max ((1 : Int) - 0) 0 ≤ ((0 : Nat) : Int) ∧ (0 : Nat) < 1) ∧
    written_pairs (match_worker_fn (sample_lib 16) sample_globals ⟨1, 0, 0.6⟩) = [(0, 1)] ∧
    ((1 : Nat) : Int) - ((0 : Nat) : Int) > 0 := by
  decide

/-- C1, amended: for every target index i and every windowRadius r > 0 the scan of the job
for i ranges over exactly the j with max(i - r, 0) <= j < i, and no record written by the
job has targetIndex - sourceIndex > r; for r <= 0 (0 included) the scan ranges over all
j < i. In both cases a job for an image with keys calls the matcher for exactly the scanned
j that have keys. -/
theorem C1_window_range (i : Nat) (r : Int) :
    (0 < r → ∀ j : Nat, j ∈ loop_indices i r ↔ max ((i : Int) - r) 0 ≤ (j : Int) ∧ j < i) ∧
    (r ≤ 0 → ∀ j : Nat, j ∈ loop_indices i r ↔ j < i) ∧
    (∀ {Keys Tree : Type} (lib : Keys2a Keys Tree) (g : Globals Keys) (ratio : ℚ),
      (g.num_keys i ≠ 0 →
        matched_sources (match_worker_fn lib g ⟨i, r, ratio⟩)
          = (loop_indices i r).filter (fun j => decide (g.num_keys j ≠ 0))) ∧
      (0 < r → ∀ p ∈ written_pairs (match_worker_fn lib g ⟨i, r, ratio⟩),
        p.2 = i ∧ p.1 < i ∧ ((p.2 : Int) - (p.1 : Int) ≤ r))) := by
  have hpos : 0 < r → ∀ j : Nat,
      j ∈ loop_indices i r ↔ max ((i : Int) - r) 0 ≤ (j : Int) ∧ j < i := by
    intro hr j
    rw [mem_loop_indices]
    unfold start_idx
    rw [if_pos hr]
  refine ⟨hpos, ?_, ?_⟩
  · intro hr j
    rw [loop_indices_of_nonpos i r hr, List.mem_range]
  · intro Keys Tree lib g ratio
    refine ⟨fun hi => matched_sources_job lib g ⟨i, r, ratio⟩ hi, ?_⟩
    intro hr p hp
    rw [mem_written_pairs_job] at hp
    obtain ⟨_, h2, h3, _⟩ := hp
    have h := (hpos hr p.1).1 h3
    have hmax : (i : Int) - r ≤ (p.1 : Int) := le_trans (le_max_left _ _) h.1
    have h2' : p.2 = i := h2
    refine ⟨h2', h.2, ?_⟩
    rw [h2']
    omega

/-- C1, amended, on a sample: with radius 2 the job for target 5 scans 3 and 4 only. -/
theorem C1_window_range_witness :
    (3 ∈ loop_indices 5 2 ↔ max (((5 : Nat) : Int) - 2) 0 ≤ ((3 : Nat) : Int) ∧ 3 < 5) ∧
    (2 ∈ loop_indices 5 2 ↔ max (((5 : Nat) : Int) - 2) 0 ≤ ((2 : Nat) : Int) ∧ 2 < 5) ∧
    (4 ∈ loop_indices 5 0 ↔ 4 < 5) :=
  ⟨(C1_window_range 5 2).1 (by decide) 3, (C1_window_range 5 2).1 (by decide) 2,
    (C1_window_range 5 0).2.1 (by decide) 4⟩

/-! ## Threshold of 16 matches (C2) -/

/-- C2: for every pair (j, i) for which the job for target i calls the matcher, the record
of (j, i) is written iff the returned match list has at least 16 entries, and it is then
written once; so 15 matches give no record and 16 give one. The list is one the cast
`(int) matches.size()` keeps, that is, shorter than 2^31 (a matcher returns at most one
match per source key, and the key count is an `int`). -/
theorem C2_threshold {Keys Tree : Type} (lib : Keys2a Keys Tree) (g : Globals Keys)
    (args : KeyMatchWorkerParams) (j : Nat)
    (hj : j ∈ matched_sources (match_worker_fn lib g args))
    (hlen : (lib.MatchKeys (g.num_keys j) (g.keys j)
      (lib.CreateSearchTree (g.num_keys args.i) (g.keys args.i)) args.ratio).length < 2 ^ 31) :
    ((j, args.i) ∈ written_pairs (match_worker_fn lib g args) ↔
      16 ≤ (lib.MatchKeys (g.num_keys j) (g.keys j)
        (lib.CreateSearchTree (g.num_keys args.i) (g.keys args.i)) args.ratio).length) ∧
    (written_pairs (match_worker_fn lib g args)).count (j, args.i)
      = (if 16 ≤ (lib.MatchKeys (g.num_keys j) (g.keys j)
          (lib.CreateSearchTree (g.num_keys args.i) (g.keys args.i)) args.ratio).length
        then 1 else 0) := by
  rw [mem_matched_sources_job] at hj
  obtain ⟨hi, hloop, hkj⟩ := hj
  have hmem : (j, args.i) ∈ written_pairs (match_worker_fn lib g args) ↔
      16 ≤ (lib.MatchKeys (g.num_keys j) (g.keys j)
        (lib.CreateSearchTree (g.num_keys args.i) (g.keys args.i)) args.ratio).length := by
    rw [mem_written_pairs_job, writes_pair_iff lib g args.i args.ratio j hlen]
    constructor
    · intro h
      exact h.2.2.2.2
    · intro h
      exact ⟨hi, rfl, hloop, hkj, h⟩
  refine ⟨hmem, ?_⟩
  rw [count_of_nodup _ _ (written_pairs_job_nodup lib g args)]
  by_cases h16 : 16 ≤ (lib.MatchKeys (g.num_keys j) (g.keys j)
      (lib.CreateSearchTree (g.num_keys args.i) (g.keys args.i)) args.ratio).length
  · rw [if_pos (hmem.2 h16), if_pos h16]
  · rw [if_neg (fun h => h16 (hmem.1 h)), if_neg h16]

/-- C2 on samples: 15 matches for the pair (0, 1) leave the output without that record. -/
theorem C2_threshold_witness :
    ¬ ((0, 1) ∈ written_pairs (match_worker_fn (sample_lib 15) sample_globals ⟨1, -1, 0.6⟩)) ∧
    (written_pairs (match_worker_fn (sample_lib 15) sample_globals ⟨1, -1, 0.6⟩)).count (0, 1)
      = 0 := by
  have h := C2_threshold (sample_lib 15) sample_globals ⟨1, -1, 0.6⟩ 0 (by decide) (by decide)
  refine ⟨fun hm => ?_, ?_⟩
  · have h15 := h.1.1 hm
    revert h15
    decide
  · rw [h.2]
    decide

/-! ## Shape of the written pairs (C3) -/

/-- C3: for every store of N images and every windowRadius, in every arrangement of the
events of the N jobs each written record names a pair with
0 <= sourceIndex < targetIndex < N, and no pair is written twice. -/
theorem C3_pairs_ordered_and_unique {Keys Tree : Type} (lib : Keys2a Keys Tree)
    (g : Globals Keys) (r : Int) (ratio : ℚ) (es : List Event)
    (hes : es.Perm (run_jobs lib g (List.range g.num_images) r ratio)) :
    (∀ p ∈ written_pairs es, 0 ≤ p.1 ∧ p.1 < p.2 ∧ p.2 < g.num_images) ∧
    (written_pairs es).Nodup := by
  have hperm : (written_pairs es).Perm
      (written_pairs (run_jobs lib g (List.range g.num_images) r ratio)) :=
    List.Perm.filterMap _ hes
  constructor
  · intro p hp
    rw [hperm.mem_iff, mem_written_pairs_run_jobs] at hp
    obtain ⟨i, hi, hp⟩ := hp
    rw [mem_written_pairs_job, mem_loop_indices] at hp
    obtain ⟨_, h2, h3, _⟩ := hp
    have h2' : p.2 = i := h2
    rw [List.mem_range] at hi
    have h3' : p.1 < i := h3.2
    omega
  · rw [hperm.nodup_iff]
    unfold run_jobs
    rw [written_pairs_flatMap, List.nodup_flatMap]
    constructor
    · intro i _
      exact written_pairs_job_nodup lib g _
    · apply List.Pairwise.imp _ (List.nodup_range g.num_images)
      intro a b hab
      show List.Disjoint _ _
      intro p hpa hpb
      rw [mem_written_pairs_job] at hpa hpb
      have ha : p.2 = a := hpa.2.1
      have hb : p.2 = b := hpb.2.1
      exact hab (ha.symm.trans hb)

/-- C3 on a sample: the run over three images with three keys each writes no pair twice,
and the pair (0, 1) is inside the bounds. -/
theorem C3_pairs_ordered_and_unique_witness :
    (written_pairs (run_jobs (sample_lib 16) sample_globals
      (List.range sample_globals.num_images) (-1) 0.6)).Nodup ∧
    (0 ≤ ((0, 1) : Nat × Nat).1 ∧ ((0, 1) : Nat × Nat).1 < ((0, 1) : Nat × Nat).2 ∧
      ((0, 1) : Nat × Nat).2 < sample_globals.num_images) :=
  ⟨(C3_pairs_ordered_and_unique (sample_lib 16) sample_globals (-1) 0.6 _
      (List.Perm.refl _)).2,
    (C3_pairs_ordered_and_unique (sample_lib 16) sample_globals (-1) 0.6 _
      (List.Perm.refl _)).1 (0, 1) (by decide)⟩

/-! ## Images without keys (C4) -/

/-- C4: when image i has no keys, the job for target i does nothing at all (no search tree
is built, the matcher is not called, nothing is written), no job calls the matcher with
source i, and no record of a run names i as source or as target. -/
theorem C4_image_without_keys_unused {Keys Tree : Type} (lib : Keys2a Keys Tree)
    (g : Globals Keys) (i : Nat) (hi : g.num_keys i = 0) (r : Int) (ratio : ℚ) :
    match_worker_fn lib g ⟨i, r, ratio⟩ = [] ∧
    (∀ t : Nat, i ∉ matched_sources (match_worker_fn lib g ⟨t, r, ratio⟩)) ∧
    (∀ (order : List Nat) (e : Event), e ∈ run_jobs lib g order r ratio →
      e ≠ Event.createSearchTree i ∧
      (∀ j t q, e = Event.matchKeys j t q → j ≠ i ∧ t ≠ i) ∧
      (∀ j t lines, e = Event.write j t lines → j ≠ i ∧ t ≠ i)) ∧
    (∀ (order : List Nat), ∀ p ∈ written_pairs (run_jobs lib g order r ratio),
      p.1 ≠ i ∧ p.2 ≠ i) := by
  refine ⟨job_of_no_keys lib g _ hi, ?_, ?_, ?_⟩
  · intro t ht
    rw [mem_matched_sources_job] at ht
    exact ht.2.2 hi
  · intro order e he
    rw [mem_run_jobs] at he
    obtain ⟨t, _, he⟩ := he
    obtain ⟨ht, hcase⟩ := mem_job lib g _ e he
    have hti : t ≠ i := fun h => ht (by rw [h]; exact hi)
    rcases hcase with h | ⟨j, _, hj, h | ⟨lines, h⟩⟩
    · subst h
      refine ⟨?_, ?_, ?_⟩
      · intro h
        cases h
        exact hti rfl
      · intro _ _ _ h
        cases h
      · intro _ _ _ h
        cases h
    · subst h
      have hji : j ≠ i := fun h => hj (by rw [h]; exact hi)
      refine ⟨?_, ?_, ?_⟩
      · intro h
        cases h
      · intro _ _ _ h
        cases h
        exact ⟨hji, hti⟩
      · intro _ _ _ h
        cases h
    · subst h
      have hji : j ≠ i := fun h => hj (by rw [h]; exact hi)
      refine ⟨?_, ?_, ?_⟩
      · intro h
        cases h
      · intro _ _ _ h
        cases h
      · intro _ _ _ h
        cases h
        exact ⟨hji, hti⟩
  · intro order p hp
    rw [mem_written_pairs_run_jobs] at hp
    obtain ⟨t, _, hp⟩ := hp
    rw [mem_written_pairs_job] at hp
    obtain ⟨h1, h2, _, h4⟩ := hp
    have h2' : p.2 = t := h2
    have h1' : g.num_keys t ≠ 0 := h1
    unfold writes_pair at h4
    simp only [Bool.and_eq_true, decide_eq_true_eq] at h4
    constructor
    · intro h
      exact h4.1 (by rw [h]; exact hi)
    · intro h
      exact h1' (by rw [← h2', h]; exact hi)

/-- C4 on the sample with key counts 0, 5, 5: the job for image 0 is empty. -/
theorem C4_image_without_keys_unused_witness :
    match_worker_fn (sample_lib 16) sample_globals_empty_first ⟨0, -1, 0.6⟩ = [] :=
  (C4_image_without_keys_unused (sample_lib 16) sample_globals_empty_first 0 (by decide)
    (-1) 0.6).1

/-! ## Scan without a window (C5) -/

/-- C5: with windowRadius < 0, the job for a target i that has keys calls the matcher once
for each j in 0..i-1 that has keys, in increasing order of j, and for no other image. -/
theorem C5_all_earlier_images {Keys Tree : Type} (lib : Keys2a Keys Tree) (g : Globals Keys)
    (i : Nat) (r : Int) (ratio : ℚ) (hr : r < 0) (hi : g.num_keys i ≠ 0) :
    matched_sources (match_worker_fn lib g ⟨i, r, ratio⟩)
      = (List.range i).filter (fun j => decide (g.num_keys j ≠ 0)) := by
  rw [matched_sources_job lib g _ hi]
  show List.filter _ (loop_indices i r) = _
  rw [loop_indices_of_nonpos i r (le_of_lt hr)]

/-- C5 on the sample with key counts 0, 5, 5: the job for image 2 calls the matcher for
image 1 only. -/
theorem C5_all_earlier_images_witness :
    matched_sources (match_worker_fn (sample_lib 16) sample_globals_empty_first ⟨2, -1, 0.6⟩)
      = (List.range 2).filter (fun j => decide (sample_globals_empty_first.num_keys j ≠ 0)) :=
  C5_all_earlier_images (sample_lib 16) sample_globals_empty_first 2 (-1) 0.6 (by decide)
    (by decide)

/-! ## Layout of a record (C6) -/

theorem digitChar_ne_newline (n : Nat) : Nat.digitChar n ≠ '\n' := by
  by_cases hn : n < 16
  · interval_cases n <;> decide
  · have hstar : Nat.digitChar n = '*' := by
      unfold Nat.digitChar
      iterate 16 rw [if_neg (by omega)]
    rw [hstar]
    decide

theorem toDigitsCore_no_newline (base fuel n : Nat) (ds : List Char) (h : '\n' ∉ ds) :
    '\n' ∉ Nat.toDigitsCore base fuel n ds := by
  induction fuel generalizing n ds with
  | zero => exact h
  | succ fuel ih =>
    have hcons : '\n' ∉ Nat.digitChar (n % base) :: ds := by
      intro hm
      rcases List.mem_cons.1 hm with hm | hm
      · exact digitChar_ne_newline _ hm.symm
      · exact h hm
    unfold Nat.toDigitsCore
    dsimp only
    split
    · exact hcons
    · exact ih _ _ hcons

theorem nat_toString_no_newline (n : Nat) : '\n' ∉ (toString n).data :=
  toDigitsCore_no_newline 10 (n + 1) n [] (by simp)

theorem int_toString_no_newline (n : Int) : '\n' ∉ (toString n).data := by
  cases n with
  | ofNat m => exact nat_toString_no_newline m
  | negSucc m =>
    show '\n' ∉ ("-" ++ toString (Nat.succ m)).data
    rw [String.data_append, List.mem_append]
    rintro (h | h)
    · revert h
      decide
    · exact nat_toString_no_newline _ h

theorem two_numbers_no_newline (a b : String) (ha : '\n' ∉ a.data) (hb : '\n' ∉ b.data) :
    '\n' ∉ (a ++ " " ++ b).data := by
  rw [String.data_append, String.data_append, List.mem_append, List.mem_append]
  rintro ((h | h) | h)
  · exact ha h
  · revert h
    decide
  · exact hb h

/-- C6: a record written for the pair (j, i), with L the match list returned for the pair
(shorter than 2^31, so that the cast `(int) matches.size()` keeps its length), is, as
text: first the decimal of j, one blank, the decimal of i, a new-line (source index first,
target index second); then the decimal of |L| and a new-line; then, for each entry of L in
list order, the decimal of its source local index, one blank, the decimal of its target
local index, a new-line. These are 2 + |L| elements, each of them one line (a text
without new-line followed by one new-line), and the k-th match line is that of L[k]. -/
theorem C6_record_layout {Keys Tree : Type} (lib : Keys2a Keys Tree) (g : Globals Keys)
    (args : KeyMatchWorkerParams) (j t : Nat) (lines : List String) (L : List KeypointMatch)
    (h : Event.write j t lines ∈ match_worker_fn lib g args)
    (hL : lib.MatchKeys (g.num_keys j) (g.keys j)
      (lib.CreateSearchTree (g.num_keys args.i) (g.keys args.i)) args.ratio = L)
    (hlen : L.length < 2 ^ 31) :
    t = args.i ∧
    lines = (toString j ++ " " ++ toString t ++ "\n") :: (toString L.length ++ "\n") ::
      L.map (fun m => toString m.m_idx1 ++ " " ++ toString m.m_idx2 ++ "\n") ∧
    lines.length = 2 + L.length ∧
    (∀ (k : Nat) (hk : k < L.length),
      lines[k + 2]? = some (toString (L.get ⟨k, hk⟩).m_idx1 ++ " " ++
        toString (L.get ⟨k, hk⟩).m_idx2 ++ "\n")) ∧
    (∀ s ∈ lines, ∃ body : String, s = body ++ "\n" ∧ '\n' ∉ body.data) := by
  obtain ⟨ht, hl⟩ := mem_write_job lib g args j t lines h
  rw [hL, write_block_eq _ _ _ hlen] at hl
  have hlines : lines = (toString j ++ " " ++ toString t ++ "\n") ::
      (toString L.length ++ "\n") ::
      L.map (fun m => toString m.m_idx1 ++ " " ++ toString m.m_idx2 ++ "\n") := by
    rw [hl, ht]
    rfl
  refine ⟨ht, hlines, ?_, ?_, ?_⟩
  · rw [hlines]
    simp only [List.length_cons, List.length_map]
    omega
  · intro k hk
    rw [hlines]
    simp only [List.getElem?_cons_succ, List.getElem?_map, List.get_eq_getElem]
    rw [List.getElem?_eq_getElem hk]
    rfl
  · intro s hs
    rw [hlines] at hs
    rcases List.mem_cons.1 hs with hs | hs
    · exact ⟨toString j ++ " " ++ toString t, hs,
        two_numbers_no_newline _ _ (nat_toString_no_newline j) (nat_toString_no_newline t)⟩
    · rcases List.mem_cons.1 hs with hs | hs
      · exact ⟨toString L.length, hs, nat_toString_no_newline _⟩
      · obtain ⟨m, _, hm⟩ := List.mem_map.1 hs
        exact ⟨toString m.m_idx1 ++ " " ++ toString m.m_idx2, hm.symm,
          two_numbers_no_newline _ _ (int_toString_no_newline _) (int_toString_no_newline _)⟩

/-- C6 on a sample: the record of the pair (0, 1) with 16 matches, each of source key 0
with target key 1, is the text "0 1", "16" and sixteen times "0 1", one per line. -/
theorem C6_record_layout_witness :
    write_block 0 1 (List.replicate 16 ⟨0, 1⟩) 16
      = "0 1\n" :: "16\n" :: List.replicate 16 "0 1\n" :=
  (C6_record_layout (sample_lib 16) sample_globals ⟨1, -1, 0.6⟩ 0 1
    (write_block 0 1 (List.replicate 16 ⟨0, 1⟩) 16) (List.replicate 16 ⟨0, 1⟩)
    (by decide) rfl (by decide)).2.1.trans (by decide)

/-! ## Lemmas on `fgets` and the reading loop -/

theorem fgets_chars_append (k : Nat) (fp : List Char) :
    (fgets_chars k fp).1 ++ (fgets_chars k fp).2 = fp := by
  induction k generalizing fp with
  | zero => rfl
  | succ k ih =>
    cases fp with
    | nil => rfl
    | cons c cs =>
      unfold fgets_chars
      by_cases hc : c = '\n'
      · simp [hc]
      · simp [hc, ih cs]

theorem fgets_chars_ne_nil (k : Nat) (c : Char) (cs : List Char) :
    (fgets_chars (k + 1) (c :: cs)).1 ≠ [] := by
  unfold fgets_chars
  by_cases hc : c = '\n' <;> simp [hc]

theorem fgets_chars_line (l rest : List Char) (k : Nat) (hl : '\n' ∉ l) (hk : l.length < k) :
    fgets_chars k (l ++ '\n' :: rest) = (l ++ ['\n'], rest) := by
  induction l generalizing k with
  | nil =>
    obtain ⟨k, rfl⟩ : ∃ k', k = k' + 1 := ⟨k - 1, by simp at hk; omega⟩
    simp [fgets_chars]
  | cons c l ih =>
    obtain ⟨k, rfl⟩ : ∃ k', k = k' + 1 := ⟨k - 1, by simp at hk; omega⟩
    have hc : c ≠ '\n' := fun h => hl (by simp [h])
    have hl' : '\n' ∉ l := fun h => hl (List.mem_cons_of_mem _ h)
    have hk' : l.length < k := by simp at hk; omega
    simp [fgets_chars, hc, ih k hl' hk']

theorem fgets_chars_last_line (l : List Char) (k : Nat) (hl : '\n' ∉ l) (hk : l.length ≤ k) :
    fgets_chars k l = (l, []) := by
  induction l generalizing k with
  | nil => cases k <;> rfl
  | cons c l ih =>
    obtain ⟨k, rfl⟩ : ∃ k', k = k' + 1 := ⟨k - 1, by simp at hk; omega⟩
    have hc : c ≠ '\n' := fun h => hl (by simp [h])
    have hl' : '\n' ∉ l := fun h => hl (List.mem_cons_of_mem _ h)
    have hk' : l.length ≤ k := by simp at hk; omega
    simp [fgets_chars, hc, ih k hl' hk']

theorem fgets_chars_full (l rest : List Char) (k : Nat) (hl : '\n' ∉ l) (hk : l.length = k) :
    fgets_chars k (l ++ rest) = (l, rest) := by
  induction l generalizing k with
  | nil =>
    subst hk
    rfl
  | cons c l ih =>
    obtain ⟨k, rfl⟩ : ∃ k', k = k' + 1 := ⟨k - 1, by simp at hk; omega⟩
    have hc : c ≠ '\n' := fun h => hl (by simp [h])
    have hl' : '\n' ∉ l := fun h => hl (List.mem_cons_of_mem _ h)
    have hk' : l.length = k := by simp at hk; omega
    simp [fgets_chars, hc, ih k hl' hk']

theorem c_str_of_no_nul (buf : List Char) (h : '\x00' ∉ buf) : c_str buf = buf := by
  unfold c_str
  rw [List.takeWhile_eq_self_iff]
  intro x hx
  simp only [bne_iff_ne, ne_eq]
  intro hx0
  exact h (hx0 ▸ hx)

theorem dropWhile_isspace_length (buf : List Char) :
    (buf.dropWhile isspace).length = 0 ↔ nonblank buf = false := by
  rw [List.length_eq_zero, List.dropWhile_eq_nil_iff]
  unfold nonblank
  rw [List.any_eq_false]
  simp

/-- One pass of the loop over a chunk that ends in a new-line. -/
theorem loop_pass_line (fuel : Nat) (fp fp' l : List Char) (key_files : List String)
    (hf : fgets 512 fp = some (l ++ ['\n'], fp')) (hnul : '\x00' ∉ l) :
    ReadFileList_loop (fuel + 1) fp key_files
      = ReadFileList_loop fuel fp'
          (if nonblank l = true then key_files ++ [String.mk l] else key_files) := by
  have hc : c_str (l ++ ['\n']) = l ++ ['\n'] := by
    apply c_str_of_no_nul
    intro h
    rw [List.mem_append] at h
    rcases h with h | h
    · exact hnul h
    · simp at h
  rw [ReadFileList_loop, hf]
  simp only [hc, List.getLast?_concat, if_true, List.dropLast_concat]
  by_cases hb : nonblank l = true
  · have h0 : ¬ (l.dropWhile isspace).length = 0 := by
      rw [dropWhile_isspace_length]
      simp [hb]
    rw [if_neg h0, if_pos hb]
  · have h0 : (l.dropWhile isspace).length = 0 := by
      rw [dropWhile_isspace_length]
      simpa using hb
    rw [if_pos h0, if_neg hb]

/-- One pass of the loop over a chunk without a new-line. -/
theorem loop_pass_open (fuel : Nat) (fp fp' l : List Char) (key_files : List String)
    (hf : fgets 512 fp = some (l, fp')) (hne : l ≠ []) (hnl : '\n' ∉ l) (hnul : '\x00' ∉ l) :
    ReadFileList_loop (fuel + 1) fp key_files
      = ReadFileList_loop fuel fp'
          (if nonblank l = true then key_files ++ [String.mk l] else key_files) := by
  have hc : c_str l = l := c_str_of_no_nul l hnul
  obtain ⟨last, hlast⟩ : ∃ last, l.getLast? = some last := by
    cases h : l.getLast? with
    | none => exact absurd (List.getLast?_eq_none_iff.1 h) hne
    | some a => exact ⟨a, rfl⟩
  have hlast_ne : last ≠ '\n' := fun h => hnl (h ▸ List.mem_of_getLast?_eq_some hlast)
  rw [ReadFileList_loop, hf]
  simp only [hc, hlast, if_neg hlast_ne]
  by_cases hb : nonblank l = true
  · have h0 : ¬ (l.dropWhile isspace).length = 0 := by
      rw [dropWhile_isspace_length]
      simp [hb]
    rw [if_neg h0, if_pos hb]
  · have h0 : (l.dropWhile isspace).length = 0 := by
      rw [dropWhile_isspace_length]
      simpa using hb
    rw [if_pos h0, if_neg hb]

theorem loop_at_eof (fuel : Nat) (key_files : List String) :
    ReadFileList_loop fuel [] key_files = some key_files := by
  cases fuel <;> rfl

theorem loop_total (fuel : Nat) (fp : List Char) (key_files : List String)
    (hnul : '\x00' ∉ fp) (hfuel : fp.length ≤ fuel) :
    ∃ key_files', ReadFileList_loop fuel fp key_files = some key_files' := by
  induction fuel generalizing fp key_files with
  | zero =>
    have : fp = [] := List.length_eq_zero.1 (Nat.le_zero.1 hfuel)
    subst this
    exact ⟨key_files, rfl⟩
  | succ fuel ih =>
    cases fp with
    | nil => exact ⟨key_files, rfl⟩
    | cons c cs =>
      have happ := fgets_chars_append 511 (c :: cs)
      have hne := fgets_chars_ne_nil 510 c cs
      have hf : fgets 512 (c :: cs)
          = some ((fgets_chars 511 (c :: cs)).1, (fgets_chars 511 (c :: cs)).2) := rfl
      generalize (fgets_chars 511 (c :: cs)).1 = chunk at happ hne hf
      generalize (fgets_chars 511 (c :: cs)).2 = fp' at happ hf
      have hnul_chunk : '\x00' ∉ chunk := fun h => hnul (happ ▸ List.mem_append_left _ h)
      have hnul' : '\x00' ∉ fp' := fun h => hnul (happ ▸ List.mem_append_right _ h)
      have hlen : fp'.length ≤ fuel := by
        have h1 : chunk.length + fp'.length = (c :: cs).length := by
          rw [← List.length_append, happ]
        have h2 : 0 < chunk.length := List.length_pos.2 hne
        omega
      obtain ⟨last, hlast⟩ : ∃ last, (c_str chunk).getLast? = some last := by
        rw [c_str_of_no_nul chunk hnul_chunk]
        cases h : chunk.getLast? with
        | none => exact absurd (List.getLast?_eq_none_iff.1 h) hne
        | some a => exact ⟨a, rfl⟩
      rw [ReadFileList_loop, hf]
      simp only [hlast]
      split <;> split <;> exact ih fp' _ hnul' hlen

theorem line_split (fp : List Char) :
    ∃ l, '\n' ∉ l ∧ (fp = l ∨ ∃ rest, fp = l ++ '\n' :: rest) := by
  induction fp with
  | nil => exact ⟨[], by simp, Or.inl rfl⟩
  | cons c cs ih =>
    by_cases hc : c = '\n'
    · exact ⟨[], by simp, Or.inr ⟨cs, by simp [hc]⟩⟩
    · obtain ⟨l, hl, h⟩ := ih
      refine ⟨c :: l, ?_, ?_⟩
      · intro hm
        rcases List.mem_cons.1 hm with hm | hm
        · exact hc hm.symm
        · exact hl hm
      · rcases h with h | ⟨rest, h⟩
        · exact Or.inl (by rw [h])
        · exact Or.inr ⟨rest, by rw [h]; rfl⟩

theorem text_lines_of_no_newline (l : List Char) (hl : '\n' ∉ l) : text_lines l = [l] := by
  induction l with
  | nil => rfl
  | cons c l ih =>
    have hc : c ≠ '\n' := fun h => hl (by simp [h])
    have hl' : '\n' ∉ l := fun h => hl (List.mem_cons_of_mem _ h)
    unfold text_lines
    rw [if_neg hc, ih hl']

theorem text_lines_append (l rest : List Char) (hl : '\n' ∉ l) :
    text_lines (l ++ '\n' :: rest) = l :: text_lines rest := by
  induction l with
  | nil => simp [text_lines]
  | cons c l ih =>
    have hc : c ≠ '\n' := fun h => hl (by simp [h])
    have hl' : '\n' ∉ l := fun h => hl (List.mem_cons_of_mem _ h)
    rw [List.cons_append, text_lines, if_neg hc, ih hl']

theorem path_entries_of_no_newline (l : List Char) (hl : '\n' ∉ l) :
    path_entries l = if nonblank l = true then [String.mk l] else [] := by
  unfold path_entries
  rw [text_lines_of_no_newline l hl]
  by_cases hb : nonblank l = true <;> simp [List.filter_cons, hb]

theorem path_entries_append (l rest : List Char) (hl : '\n' ∉ l) :
    path_entries (l ++ '\n' :: rest)
      = (if nonblank l = true then [String.mk l] else []) ++ path_entries rest := by
  unfold path_entries
  rw [text_lines_append l rest hl]
  by_cases hb : nonblank l = true <;> simp [List.filter_cons, hb]

theorem append_ite_entry (key_files : List String) (l : List Char) :
    (if nonblank l = true then key_files ++ [String.mk l] else key_files)
      = key_files ++ (if nonblank l = true then [String.mk l] else []) := by
  by_cases hb : nonblank l = true <;> simp [hb]

/-- The reading loop returns the non-blank lines when no line is longer than 511
characters. -/
theorem loop_short_lines (n : Nat) : ∀ (fp : List Char), fp.length ≤ n →
    '\x00' ∉ fp → (∀ l ∈ text_lines fp, l.length ≤ 511) →
    ∀ (fuel : Nat) (key_files : List String), fp.length ≤ fuel →
      ReadFileList_loop fuel fp key_files = some (key_files ++ path_entries fp) := by
  induction n with
  | zero =>
    intro fp hn _ _ fuel key_files _
    have : fp = [] := List.length_eq_zero.1 (Nat.le_zero.1 hn)
    subst this
    rw [loop_at_eof]
    simp [path_entries, text_lines, nonblank]
  | succ n ih =>
    intro fp hn hnul hlines fuel key_files hfuel
    obtain ⟨l, hl, hfp | ⟨rest, hfp⟩⟩ := line_split fp
    · -- the text is one line without a new-line
      subst hfp
      have hlen : fp.length ≤ 511 :=
        hlines fp (by rw [text_lines_of_no_newline fp hl]; simp)
      cases fp with
      | nil =>
        rw [loop_at_eof]
        simp [path_entries, text_lines, nonblank]
      | cons c cs =>
        obtain ⟨fuel, rfl⟩ : ∃ f, fuel = f + 1 := ⟨fuel - 1, by simp at hfuel; omega⟩
        have hf : fgets 512 (c :: cs) = some (c :: cs, []) := by
          show some (fgets_chars 511 (c :: cs)) = _
          rw [fgets_chars_last_line (c :: cs) 511 hl hlen]
        rw [loop_pass_open fuel (c :: cs) [] (c :: cs) key_files hf (by simp) hl hnul,
          loop_at_eof, append_ite_entry, path_entries_of_no_newline _ hl]
    · -- the text starts with a line that ends in a new-line
      subst hfp
      have hnul_l : '\x00' ∉ l := fun h => hnul (List.mem_append_left _ h)
      have hnul_rest : '\x00' ∉ rest := fun h =>
        hnul (List.mem_append_right _ (List.mem_cons_of_mem _ h))
      have hlines' := hlines
      rw [text_lines_append l rest hl] at hlines'
      have hlen : l.length ≤ 511 := hlines' l (List.mem_cons_self _ _)
      have hlines_rest : ∀ l' ∈ text_lines rest, l'.length ≤ 511 :=
        fun l' h => hlines' l' (List.mem_cons_of_mem _ h)
      have htotal : (l ++ '\n' :: rest).length = l.length + rest.length + 1 := by
        simp
        omega
      have hrest_n : rest.length ≤ n := by omega
      rw [path_entries_append l rest hl, ← List.append_assoc, ← append_ite_entry]
      obtain ⟨fuel, rfl⟩ : ∃ f, fuel = f + 1 := ⟨fuel - 1, by omega⟩
      by_cases h511 : l.length < 511
      · have hf : fgets 512 (l ++ '\n' :: rest) = some (l ++ ['\n'], rest) := by
          have : fgets 512 (l ++ '\n' :: rest)
              = some (fgets_chars 511 (l ++ '\n' :: rest)) := by
            cases l <;> rfl
          rw [this, fgets_chars_line l rest 511 hl h511]
        rw [loop_pass_line fuel _ rest l key_files hf hnul_l]
        exact ih rest hrest_n hnul_rest hlines_rest fuel _ (by omega)
      · have hl511 : l.length = 511 := by omega
        have hl_ne : l ≠ [] := by
          intro h
          rw [h] at hl511
          simp at hl511
        have hf : fgets 512 (l ++ '\n' :: rest) = some (l, '\n' :: rest) := by
          have : fgets 512 (l ++ '\n' :: rest)
              = some (fgets_chars 511 (l ++ '\n' :: rest)) := by
            cases l <;> rfl
          rw [this, fgets_chars_full l _ 511 hl hl511]
        rw [loop_pass_open fuel _ ('\n' :: rest) l key_files hf hl_ne hl hnul_l]
        obtain ⟨fuel, rfl⟩ : ∃ f, fuel = f + 1 := ⟨fuel - 1, by omega⟩
        have hf2 : fgets 512 ('\n' :: rest) = some ([] ++ ['\n'], rest) := by
          simp [fgets, fgets_chars]
        rw [loop_pass_line fuel _ rest [] _ hf2 (by simp)]
        have hblank : nonblank [] = false := rfl
        simp only [hblank, Bool.false_eq_true, if_false]
        exact ih rest hrest_n hnul_rest hlines_rest fuel _ (by omega)

/-! ## Entries read from the list file (C8) -/

/-- C8, as stated, fails for long lines: a list file made of one line of 512 characters
has one non-blank line, yet `ReadFileList` appends two entries, the first 511 characters
and the remaining one. -/
theorem C8_long_line_counterexample :
    path_entries long_line_text = [String.mk (List.replicate 512 'a')] ∧
    ReadFileList (fun _ => some long_line_text) "list.txt" []
      = some (0, [String.mk (List.replicate 511 'a'), "a"]) := by
  set_option maxRecDepth 100000 in decide

/-- C8, amended: for every list text without NUL characters in which no line is longer
than 511 characters, `ReadFileList` appends to key_files exactly one entry per line that
contains a non-whitespace character, in input order, each entry being that line without
its new-line; blank lines contribute no entry. -/
theorem C8_entries_of_short_lines (fopen_r : String → Option (List Char)) (list_in : String)
    (fp : List Char) (key_files : List String)
    (hopen : fopen_r list_in = some fp) (hnul : '\x00' ∉ fp)
    (hlines : ∀ l ∈ text_lines fp, l.length ≤ 511) :
    ∃ r, ReadFileList fopen_r list_in key_files
      = some (r, key_files ++ ((text_lines fp).filter nonblank).map String.mk) := by
  have h := loop_short_lines fp.length fp (le_refl _) hnul hlines fp.length key_files (le_refl _)
  unfold ReadFileList
  rw [hopen]
  simp only [h]
  unfold path_entries
  split
  · exact ⟨1, rfl⟩
  · exact ⟨0, rfl⟩

/-- C8, amended, on a sample: the list with blank lines and padded names gives three
entries. -/
theorem C8_entries_of_short_lines_witness :
    ∃ r, ReadFileList sample_sys.fopen_r "list.txt" []
      = some (r, [] ++ ((text_lines sample_list_text).filter nonblank).map String.mk) :=
  C8_entries_of_short_lines sample_sys.fopen_r "list.txt" sample_list_text [] (by decide)
    (by decide) (by decide)

/-! ## Start-up errors (C9) -/

theorem main_of_read_failure {Keys Tree : Type} (sys : Sys) (lib : Keys2a Keys Tree)
    (argv : List String) (r : Int) (key_files : List String)
    (h : ReadFileList sys.fopen_r (argv.getD 1 "") [] = some (r, key_files)) (hr : r ≠ 0) :
    main sys lib argv = some ⟨EXIT_FAILURE, [], []⟩ := by
  unfold main
  by_cases hargc : argv.length ≠ 3 ∧ argv.length ≠ 4
  · exact if_pos hargc
  · dsimp only
    rw [if_neg hargc, h]
    exact if_pos hr

/-- C9: for a list file without NUL characters, `ReadFileList` (called as `main` calls it,
with an empty key_files) returns, and its status is non-zero iff the file cannot be
opened or no entry was found; and whenever it returns non-zero, `main` returns
EXIT_FAILURE without any call of `fopen(_, "w")` and without running a job. -/
theorem C9_input_errors {Keys Tree : Type} (sys : Sys) (lib : Keys2a Keys Tree)
    (argv : List String)
    (hnul : ∀ fp, sys.fopen_r (argv.getD 1 "") = some fp → '\x00' ∉ fp) :
    ∃ r key_files, ReadFileList sys.fopen_r (argv.getD 1 "") [] = some (r, key_files) ∧
      (r ≠ 0 ↔ (sys.fopen_r (argv.getD 1 "") = none ∨ key_files = [])) ∧
      (r ≠ 0 → ∃ res, main sys lib argv = some res ∧ res.status = EXIT_FAILURE ∧
        res.fopen_w_calls = [] ∧ res.trace = []) := by
  have hmain : ∀ r key_files,
      ReadFileList sys.fopen_r (argv.getD 1 "") [] = some (r, key_files) → r ≠ 0 →
      ∃ res, main sys lib argv = some res ∧ res.status = EXIT_FAILURE ∧
        res.fopen_w_calls = [] ∧ res.trace = [] := fun r key_files h hr =>
    ⟨_, main_of_read_failure sys lib argv r key_files h hr, rfl, rfl, rfl⟩
  cases hopen : sys.fopen_r (argv.getD 1 "") with
  | none =>
    have hread : ReadFileList sys.fopen_r (argv.getD 1 "") [] = some (1, []) := by
      unfold ReadFileList
      rw [hopen]
    exact ⟨1, [], hread, by simp, hmain 1 [] hread⟩
  | some fp =>
    obtain ⟨kf, hkf⟩ := loop_total fp.length fp [] (hnul fp hopen) (le_refl _)
    by_cases hempty : kf.length = 0
    · have hread : ReadFileList sys.fopen_r (argv.getD 1 "") [] = some (1, kf) := by
        unfold ReadFileList
        rw [hopen]
        simp only [hkf, hempty, if_true]
      exact ⟨1, kf, hread, by simp [List.length_eq_zero.1 hempty], hmain 1 kf hread⟩
    · have hread : ReadFileList sys.fopen_r (argv.getD 1 "") [] = some (0, kf) := by
        unfold ReadFileList
        rw [hopen]
        simp only [hkf, hempty, if_false]
      have hne : kf ≠ [] := fun h => hempty (by rw [h]; rfl)
      exact ⟨0, kf, hread, by simp [hne], hmain 0 kf hread⟩

/-- C9 on a sample: the list file `missing.txt` cannot be opened, so the run fails before
the output file is touched. -/
theorem C9_input_errors_witness :
    ∃ r key_files,
      ReadFileList sample_sys.fopen_r (["KeyMatchFull", "missing.txt", "out.txt"].getD 1 "") []
        = some (r, key_files) ∧
      (r ≠ 0 ↔ (sample_sys.fopen_r (["KeyMatchFull", "missing.txt", "out.txt"].getD 1 "") = none
        ∨ key_files = [])) ∧
      (r ≠ 0 → ∃ res, main sample_sys (sample_lib 16) ["KeyMatchFull", "missing.txt", "out.txt"]
          = some res ∧ res.status = EXIT_FAILURE ∧ res.fopen_w_calls = [] ∧ res.trace = []) :=
  C9_input_errors sample_sys (sample_lib 16) ["KeyMatchFull", "missing.txt", "out.txt"]
    (by decide)

/-! ## Ratio test and the ratio passed by `main` (C7) -/

theorem ratio_test_iff (ratio dist1 dist2 : ℚ) (h1 : 0 ≤ dist1) (h2 : dist1 ≤ dist2) :
    ratio_test ratio dist1 dist2 = true ↔ dist1 < ratio * dist2 := by
  unfold ratio_test
  by_cases hz : dist2 = 0
  · subst hz
    simp only [if_true, mul_zero]
    constructor
    · intro h
      cases h
    · intro h
      exact absurd h (not_lt.2 h1)
  · have hpos : 0 < dist2 := lt_of_le_of_ne (le_trans h1 h2) (Ne.symm hz)
    simp only [hz, if_false, decide_eq_true_eq]
    exact div_lt_iff₀ hpos

theorem matchKeys_ratio_run_jobs {Keys Tree : Type} (lib : Keys2a Keys Tree)
    (g : Globals Keys) (order : List Nat) (r : Int) (ratio : ℚ) (j i : Nat) (q : ℚ)
    (hq : Event.matchKeys j i q ∈ run_jobs lib g order r ratio) : q = ratio := by
  rw [mem_run_jobs] at hq
  obtain ⟨t, _, hq⟩ := hq
  obtain ⟨_, hcase⟩ := mem_job lib g _ _ hq
  rcases hcase with hc | ⟨j', _, _, hc | ⟨lines, hc⟩⟩
  · cases hc
  · cases hc
    rfl
  · cases hc

theorem main_trace_ratio {Keys Tree : Type} (sys : Sys) (lib : Keys2a Keys Tree)
    (argv : List String) (res : MainResult) (h : main sys lib argv = some res)
    (j i : Nat) (q : ℚ) (hq : Event.matchKeys j i q ∈ res.trace) : q = 0.6 := by
  unfold main at h
  dsimp only at h
  split at h
  · cases h
    cases hq
  · split at h
    · cases h
    · split at h
      · cases h
        cases hq
      · split at h
        · cases h
          cases hq
        · split at h
          · cases h
          · split at h
            · cases h
              cases hq
            · have h' := Option.some.inj h
              rw [← h'] at hq
              dsimp only at hq
              exact matchKeys_ratio_run_jobs lib _ _ _ _ j i q hq

/-- C7: in the matcher as the spec describes it, the correspondence of source descriptor d
with its nearest neighbour is accepted iff dist1 < ratio * dist2 (dist1 <= dist2 the
distances to the two nearest neighbours), so the boundary case dist1 = ratio * dist2 is
rejected; and every call of the matcher made by a run of `main` passes ratio = 0.6. -/
theorem C7_ratio_test (query : Nat → Option Neighbours) (sourceCount d : Nat)
    (nb : Neighbours) (ratio : ℚ) (hd : d < sourceCount) (hq : query d = some nb)
    (h1 : 0 ≤ nb.dist1) (h2 : nb.dist1 ≤ nb.dist2) :
    ((⟨d, nb.nearest1⟩ : KeypointMatch) ∈ MatchKeys_model query sourceCount ratio ↔
      nb.dist1 < ratio * nb.dist2) ∧
    (nb.dist1 = ratio * nb.dist2 →
      (⟨d, nb.nearest1⟩ : KeypointMatch) ∉ MatchKeys_model query sourceCount ratio) ∧
    (∀ {Keys Tree : Type} (sys : Sys) (lib : Keys2a Keys Tree) (argv : List String)
      (res : MainResult), main sys lib argv = some res →
      ∀ j i q, Event.matchKeys j i q ∈ res.trace → q = 0.6) := by
  have hmem : (⟨d, nb.nearest1⟩ : KeypointMatch) ∈ MatchKeys_model query sourceCount ratio ↔
      nb.dist1 < ratio * nb.dist2 := by
    rw [← ratio_test_iff ratio nb.dist1 nb.dist2 h1 h2]
    unfold MatchKeys_model
    rw [List.mem_filterMap]
    constructor
    · rintro ⟨d', _, hd'⟩
      cases hq' : query d' with
      | none => simp [hq'] at hd'
      | some nb' =>
        rw [hq'] at hd'
        by_cases ht : ratio_test ratio nb'.dist1 nb'.dist2 = true
        · simp only [ht, if_true, Option.some.injEq, KeypointMatch.mk.injEq] at hd'
          have hdd : d' = d := by exact_mod_cast hd'.1
          subst hdd
          rw [hq] at hq'
          cases hq'
          exact ht
        · simp [ht] at hd'
    · intro ht
      refine ⟨d, List.mem_range.2 hd, ?_⟩
      simp only [hq, ht, if_true]
  refine ⟨hmem, ?_, ?_⟩
  · intro heq hin
    have hlt := hmem.1 hin
    rw [heq] at hlt
    exact lt_irrefl _ hlt
  · intro Keys Tree sys lib argv res hres j i q hq
    exact main_trace_ratio sys lib argv res hres j i q hq

/-- C7 on a sample: with distances 3 and 5 and ratio 0.6 the test is on its boundary, and
the correspondence of descriptor 1 is rejected. -/
theorem C7_ratio_test_witness :
    (⟨((1 : Nat) : Int), 9⟩ : KeypointMatch) ∉ MatchKeys_model sample_query 3 0.6 :=
  (C7_ratio_test sample_query 3 1 ⟨9, 3, 7, 5⟩ 0.6 (by decide) rfl (by decide)
    (by decide)).2.1 (by norm_num)

end KeyMatchFull
